import Mathlib

/-!
Shallow embedding of the summary-reformatting transform `formatSummary`
from `src/extension/offscreen.js` (the "Summary Normalizer" of the spec).

Strings are modelled as `List Char`.  Every JavaScript regex that the
function uses is deterministic on the character classes involved (each
greedy quantifier is followed by a character class disjoint from the one
it repeats), so each regex operation is embedded as a direct scanner.

JavaScript semantics modelled faithfully:
* `\s` is the ECMAScript whitespace class (tab, LF, VT, FF, CR, space,
  NBSP, and the Unicode space separators up to U+FEFF);
* `String.prototype.trim` strips that same class from both ends;
* `String.prototype.split` keeps empty fields (`"a\n"` splits to two
  fields, the second empty);
* `String.prototype.replace` with a string pattern replaces the first
  occurrence only (dollar-escape sequences in the replacement string are
  not modelled; none of the inputs considered here contain them);
* `replace` with a `/g` regex collects non-overlapping matches left to
  right over the original string and removes/rewrites them all.
-/

/-- ECMAScript `\s` (and `trim`) whitespace class. -/
def jsWs (c : Char) : Bool :=
  c = ' ' || c = '\t' || c = '\n' || c = '\x0b' || c = '\x0c' || c = '\r' ||
  c = ' ' || c = ' ' || (' ' ≤ c && c ≤ ' ') ||
  c = ' ' || c = ' ' || c = ' ' || c = ' ' ||
  c = '　' || c = '﻿'

/-- JavaScript `String.prototype.trim`. -/
def jsTrim (s : List Char) : List Char :=
  ((s.dropWhile jsWs).reverse.dropWhile jsWs).reverse

/-- JavaScript `String.prototype.split(sep)` for a single-character
separator: splits on every occurrence, keeping empty fields. -/
def splitOnChar (sep : Char) : List Char → List (List Char)
  | [] => [[]]
  | c :: cs =>
    let r := splitOnChar sep cs
    if c = sep then [] :: r
    else (c :: r.headD []) :: r.tail

/-- The literal `Action Items:` required by the block-locating regex. -/
def actionLit : List Char := "Action Items:".data

/-- Match length of the heading part `#+\s*\d\.\s*Action Items:` of the
block-locating regex `/(#+\s*\d\.\s*Action Items:[\s\S]*?)(?=(#+\s*\d\.\s*)|$)/`
when it matches at the start of `l` (each greedy run is forced, because the
class that follows it is disjoint from the repeated class). -/
def parseHeading (l : List Char) : Option Nat :=
  let a := (l.takeWhile (fun c => c = '#')).length
  if a = 0 then none else
    let l1 := l.dropWhile (fun c => c = '#')
    let b := (l1.takeWhile jsWs).length
    match l1.dropWhile jsWs with
    | d :: e :: r2 =>
      if d.isDigit = true ∧ e = '.' then
        let c := (r2.takeWhile jsWs).length
        if actionLit.isPrefixOf (r2.dropWhile jsWs) then
          some (a + b + 2 + c + actionLit.length)
        else none
      else none
    | _ => none

/-- The lookahead `(?=(#+\s*\d\.\s*))` that terminates the lazily matched
block body (the `$` alternative is handled by `bodyLen` running out of
characters). -/
def headingLookahead (l : List Char) : Bool :=
  (l.takeWhile (fun c => c = '#')).length ≠ 0 &&
  match (l.dropWhile (fun c => c = '#')).dropWhile jsWs with
  | d :: e :: _ => d.isDigit && e = '.'
  | _ => false

/-- Length of the lazily matched block body `[\s\S]*?`: the least number of
characters after which the lookahead holds or the string ends. -/
def bodyLen : List Char → Nat
  | [] => 0
  | c :: cs => if headingLookahead (c :: cs) then 0 else bodyLen cs + 1

/-- Leftmost match of the action-items regex: scans the start positions
left to right, exactly as the JavaScript engine does, and returns the
start index together with the length of the matched block. -/
def findBlockAux : List Char → Nat → Option (Nat × Nat)
  | [], _ => none
  | c :: cs, i =>
    match parseHeading (c :: cs) with
    | some h => some (i, h + bodyLen ((c :: cs).drop h))
    | none => findBlockAux cs (i + 1)

/-- `formatted.match(actionItemsRegex)`: start index and length of
`match[1]` (the whole matched block), or `none`. -/
def actionBlockSpan (s : List Char) : Option (Nat × Nat) :=
  findBlockAux s 0

/-- Header cell transform `h => h.trim().replace(/\*| /g, '')`. -/
def parseHeaderCell (h : List Char) : List Char :=
  (jsTrim h).filter (fun c => !(c = '*' || c = ' '))

/-- `headerLine.split('|').map(h => h.trim().replace(/\*| /g,'')).filter(Boolean)`. -/
def parseHeaderCells (headerLine : List Char) : List (List Char) :=
  ((splitOnChar '|' headerLine).map parseHeaderCell).filter (fun c => c ≠ [])

/-- `line.split('|').map(cell => cell.trim()).filter(Boolean)`: row cells;
note that a cell that is empty after trimming is dropped from the row. -/
def parseRowCells (line : List Char) : List (List Char) :=
  ((splitOnChar '|' line).map jsTrim).filter (fun c => c ≠ [])

/-- `row[i] || 'N/A'`: the cell at index `i`, or the literal `N/A` when the
cell is missing or the empty string (JavaScript falsiness). -/
def cellValue (row : List (List Char)) (i : Nat) : List Char :=
  let v := row.getD i []
  if v = [] then "N/A".data else v

/-- One line of the replacement list: `• label: value` for the first
header, `    label: value` (four-space indent) for the rest. -/
def bulletLine (i : Nat) (h : List Char) (row : List (List Char)) : List Char :=
  (if i = 0 then "• ".data else "    ".data) ++ h ++ ": ".data ++ cellValue row i ++ ['\n']

/-- The `newContent` string built for a validated table: the block's own
heading line, then for each row a blank line followed by one line per
header. -/
def renderContent (headerText : List Char) (headers : List (List Char))
    (rows : List (List (List Char))) : List Char :=
  headerText ++ ['\n'] ++
    (rows.map (fun row =>
      ['\n'] ++ (headers.enum.map (fun p => bulletLine p.1 p.2 row)).flatten)).flatten

/-- `blockLines`: the trimmed block split on newlines. -/
def blockLines (blk : List Char) : List (List Char) :=
  splitOnChar '\n' (jsTrim blk)

/-- JavaScript `String.prototype.includes(pat)` (substring containment). -/
def containsSub (pat : List Char) : List Char → Bool
  | [] => pat.isPrefixOf ([] : List Char)
  | c :: cs => pat.isPrefixOf (c :: cs) || containsSub pat cs

/-- The separator-line test `l.includes('---')`. -/
def hasSep (l : List Char) : Bool :=
  containsSub "---".data l

/-- `headerText`: the first line of the trimmed block. -/
def blockHeaderText (blk : List Char) : List Char :=
  (blockLines blk).headD []

/-- `tableLines`: all lines of the trimmed block after the heading line. -/
def blockTableLines (blk : List Char) : List (List Char) :=
  (blockLines blk).tail

/-- `headers`: the parsed cells of the line just before the separator. -/
def blockHeaders (blk : List Char) (k : Nat) : List (List Char) :=
  parseHeaderCells ((blockTableLines blk).getD (k - 1) [])

/-- `rows`: every line after the separator row (to the end of the block)
parsed into cells, keeping only the non-empty rows. -/
def blockRows (blk : List Char) (k : Nat) : List (List (List Char)) :=
  (((blockTableLines blk).drop (k + 1)).map parseRowCells).filter (fun r => r ≠ [])

/-- The part of the table logic guarded by `if (separatorIndex > 0)`:
validation of headers and rows, and construction of the replacement. -/
def blockReplacementCore (blk : List Char) (k : Nat) : Option (List Char) :=
  if k > 0 then
    if blockRows blk k ≠ [] ∧ blockHeaders blk k ≠ [] ∧
        (blockRows blk k).all (fun r => r.length = (blockHeaders blk k).length)
    then some (renderContent (blockHeaderText blk) (blockHeaders blk k) (blockRows blk k))
    else none
  else none

/-- The table-parsing part of `formatSummary`: given the matched block,
returns the replacement text when the pipe check, separator position and
row validation all succeed, and `none` otherwise (in which case the
original block is left in place). -/
def blockReplacement (blk : List Char) : Option (List Char) :=
  if '|' ∈ blk then
    match (blockTableLines blk).findIdx? hasSep with
    | some k => blockReplacementCore blk k
    | none => none
  else none

/-- JavaScript `s.replace(pat, repl)` with a string pattern: replace the
first occurrence of `pat` (with an empty pattern, insert at the start). -/
def replaceFirst (pat repl : List Char) : List Char → List Char
  | [] => if pat.isPrefixOf ([] : List Char) then repl else []
  | c :: cs =>
    if pat.isPrefixOf (c :: cs) then repl ++ (c :: cs).drop pat.length
    else c :: replaceFirst pat repl cs

/-- `formatted.replace(/\*\*/g, '')`: remove every non-overlapping `**`. -/
def removeStarStar : List Char → List Char
  | '*' :: '*' :: r => removeStarStar r
  | c :: r => c :: removeStarStar r
  | [] => []

/-- `formatted.replace(/\*/g, '')`: remove every remaining `*`. -/
def removeStar (s : List Char) : List Char :=
  s.filter (fun c => c ≠ '*')

/-- Match length of `#+\s*\d\.\s*` at the start of `l` (the per-line
heading-numbering pattern; the trailing `\s*` is greedy and may consume
newlines). -/
def headingNumLen (l : List Char) : Option Nat :=
  let a := (l.takeWhile (fun c => c = '#')).length
  if a = 0 then none else
    let l1 := l.dropWhile (fun c => c = '#')
    let b := (l1.takeWhile jsWs).length
    match l1.dropWhile jsWs with
    | d :: e :: r2 =>
      if d.isDigit = true ∧ e = '.' then some (a + b + 2 + (r2.takeWhile jsWs).length)
      else none
    | _ => none

/-- `formatted.replace(/^#+\s*\d\.\s*/gm, '')`: scan the string left to
right, removing the pattern at every line start (`atLS` records whether
the current position follows a newline of the original string); the fuel
is an upper bound on the number of steps, one character consumed per step. -/
def stripHNAux : Nat → Bool → List Char → List Char
  | 0, _, s => s
  | f + 1, atLS, s =>
    match s with
    | [] => []
    | c :: cs =>
      if atLS then
        match headingNumLen (c :: cs) with
        | some n => stripHNAux f ((c :: cs).getD (n - 1) ' ' = '\n') ((c :: cs).drop n)
        | none => c :: stripHNAux f (c = '\n') cs
      else c :: stripHNAux f (c = '\n') cs

def stripHeadingNums (s : List Char) : List Char :=
  stripHNAux s.length true s

/-- `formatted.replace(/^[-•]\s*/gm, '• ')`: bullet standardization at
line starts; the greedy `\s*` may consume newlines. -/
def stripBulletsAux : Nat → Bool → List Char → List Char
  | 0, _, s => s
  | f + 1, atLS, s =>
    match s with
    | [] => []
    | c :: cs =>
      if atLS && (c = '-' || c = '•') then
        let w := (cs.takeWhile jsWs).length
        let atLS2 := w > 0 && cs.getD (w - 1) ' ' = '\n'
        '•' :: ' ' :: stripBulletsAux f atLS2 (cs.dropWhile jsWs)
      else c :: stripBulletsAux f (c = '\n') cs

def stripBullets (s : List Char) : List Char :=
  stripBulletsAux s.length true s

/-- `formatted.replace(/(\n\s*){3,}/g, '\n\n')`: a match is a maximal
whitespace run starting at a newline and containing at least three
newlines; it is replaced by exactly two newlines.  A run with fewer
newlines admits no match anywhere inside it and is emitted unchanged. -/
def collapseNlAux : Nat → List Char → List Char
  | 0, s => s
  | _ + 1, [] => []
  | f + 1, c :: cs =>
    if c = '\n' then
      if 3 ≤ (c :: cs.takeWhile jsWs).count '\n' then
        '\n' :: '\n' :: collapseNlAux f (cs.dropWhile jsWs)
      else (c :: cs.takeWhile jsWs) ++ collapseNlAux f (cs.dropWhile jsWs)
    else c :: collapseNlAux f cs

def collapseNl (s : List Char) : List Char :=
  collapseNlAux s.length s

/-- Step 6 of the spec: the global cleanup applied to the whole string
(lines 175-180 of `offscreen.js`), in source order. -/
def applyCleanup (s : List Char) : List Char :=
  jsTrim (collapseNl (stripBullets (stripHeadingNums (removeStar (removeStarStar s)))))

/-- The substitution step applied to the matched block: replace the first
occurrence of the block text by the rendered list when `blockReplacement`
succeeds, keep the text unchanged otherwise. -/
def applyBlock (s blk : List Char) : List Char :=
  match blockReplacement blk with
  | none => s
  | some newContent => replaceFirst blk newContent s

/-- The input after the (possible) table substitution, before cleanup. -/
def substitutedText (s : List Char) : List Char :=
  match actionBlockSpan s with
  | none => s
  | some (i, n) => applyBlock s ((s.drop i).take n)

/-- The full transform `formatSummary` of `src/extension/offscreen.js`:
empty (falsy) input returns the empty string; otherwise the first
action-items block, when it contains a pipe and its table validates, is
replaced by the re-rendered list, and the global cleanup runs last. -/
def formatSummary (s : List Char) : List Char :=
  if s = [] then [] else applyCleanup (substitutedText s)

/-- Whether the table-substitution branch of `formatSummary` fires on `s`:
a block is found and `blockReplacement` succeeds on it.  When this is
`false` the function degrades to the global cleanup of the input. -/
def tableSubstituted (s : List Char) : Bool :=
  match actionBlockSpan s with
  | none => false
  | some (i, n) => (blockReplacement ((s.drop i).take n)).isSome

/-- Variant of `renderContent` that reads each cell directly, with no
`N/A` fallback; used to state that the fallback branch of the code is
unreachable for validated tables. -/
def renderContentDirect (headerText : List Char) (headers : List (List Char))
    (rows : List (List (List Char))) : List Char :=
  headerText ++ ['\n'] ++
    (rows.map (fun row =>
      ['\n'] ++ (headers.enum.map (fun p =>
        (if p.1 = 0 then "• ".data else "    ".data) ++ p.2 ++ ": ".data ++
          row.getD p.1 [] ++ ['\n'])).flatten)).flatten

/-- `true` iff the string nowhere contains three consecutive newline
characters. -/
def ok3 : List Char → Bool
  | [] => true
  | c :: cs => !(c = '\n' && "\n\n".data.isPrefixOf cs) && ok3 cs

/-- The spec example of testable property 4 (claim C1): a table whose
second data row has an empty `Owner` cell. -/
def exC1 : List Char :=
  "## 3. Action Items:\n| Task | Owner |\n| --- | --- |\n| Fix bug | Alice |\n| Write docs |  |".data

/-- A single-column table whose data row starts with an empty cell but
still passes validation after the empty cell is dropped (claim C2). -/
def exC2 : List Char :=
  "## 1. Action Items:\n| Task |\n| --- |\n|  | Fix |".data

/-- A valid table followed by a blank line and a stray non-pipe line
inside the same block (claim C5). -/
def exC5 : List Char :=
  "## 1. Action Items:\n| Task | Owner |\n| --- | --- |\n| Fix | Al |\n\nextra note".data

/-- The same input as `exC5` with the stray line removed. -/
def exC5v : List Char :=
  "## 1. Action Items:\n| Task | Owner |\n| --- | --- |\n| Fix | Al |".data

/-- A validly reformatted table followed by a line with stacked heading
numbering, which loses one numbering layer per pass (claim C6). -/
def exC6 : List Char :=
  "## 1. Action Items:\n| Task |\n| --- |\n| Fix |\n# 2. ## 3. tricky".data

/-- A valid table input on which the transform is idempotent (claim C6). -/
def exC6v : List Char :=
  "Intro\n## 1. Action Items:\n| Task | Owner |\n| --- | --- |\n| Fix bug | Alice |".data

/-- A run of four newlines at the end of the input (claim C8). -/
def exC8 : List Char := "a\n\n\n\n".data

/-- Malformed input with pipes but no action-items heading (claim C3). -/
def exC3 : List Char := "**broken | table\n| --- |\n\n\n\n* stray".data

/-- A table whose single data row has two cells against three headers
(claim C4, the spec's own inconsistent-columns example). -/
def exC4 : List Char :=
  "## 2. Action Items:\n| A | B | C |\n| --- | --- | --- |\n| x | y |".data

/-- A block whose first table line is already the separator, so no header
row precedes it (claim C10). -/
def exC10 : List Char := "# 1. Action Items:\n| --- |\n| x |".data

/-- Two Action Items blocks, both with valid tables (claim C7). -/
def exC7 : List Char :=
  "## 1. Action Items:\n| Task |\n| --- |\n| Fix |\n## 2. Action Items:\n| A |\n| --- |\n| b |".data

/-! ## Equation lemmas for the branch structure -/

theorem applyBlock_of_none (s blk : List Char) (h : blockReplacement blk = none) :
    applyBlock s blk = s := by
  unfold applyBlock; rw [h]

theorem applyBlock_of_some (s blk nc : List Char) (h : blockReplacement blk = some nc) :
    applyBlock s blk = replaceFirst blk nc s := by
  unfold applyBlock; rw [h]

theorem substitutedText_of_none (s : List Char) (h : actionBlockSpan s = none) :
    substitutedText s = s := by
  unfold substitutedText; rw [h]

theorem substitutedText_of_some (s : List Char) (i n : Nat)
    (h : actionBlockSpan s = some (i, n)) :
    substitutedText s = applyBlock s ((s.drop i).take n) := by
  unfold substitutedText; rw [h]

theorem blockReplacement_of_pipe_sep (blk : List Char) (k : Nat) (hp : '|' ∈ blk)
    (hsep : (blockTableLines blk).findIdx? hasSep = some k) :
    blockReplacement blk = blockReplacementCore blk k := by
  unfold blockReplacement; rw [if_pos hp, hsep]

theorem blockReplacement_of_no_pipe (blk : List Char) (hp : ¬ '|' ∈ blk) :
    blockReplacement blk = none := by
  unfold blockReplacement; rw [if_neg hp]

/-! ## Theorems -/

/-- Helper: when the table-substitution branch does not fire, the output
is exactly the global cleanup of the input. -/
theorem formatSummary_of_not_substituted (s : List Char)
    (h : tableSubstituted s = false) : formatSummary s = applyCleanup s := by
  unfold tableSubstituted at h
  unfold formatSummary
  by_cases hs : s = []
  · subst hs; rfl
  · rw [if_neg hs]
    cases hspan : actionBlockSpan s with
    | none => rw [substitutedText_of_none s hspan]
    | some p =>
      obtain ⟨i, n⟩ := p
      rw [hspan] at h
      have h2 : (blockReplacement ((s.drop i).take n)).isSome = false := h
      rw [substitutedText_of_some s i n hspan]
      cases hrep : blockReplacement ((s.drop i).take n) with
      | none => rw [applyBlock_of_none s _ hrep]
      | some nc => rw [hrep] at h2; simp at h2

/-- Helper: a parsed row of the wrong width makes the whole table
validation fail, so no replacement text is produced for the block. -/
theorem blockReplacement_of_bad_row (blk : List Char) (k : Nat) (r : List (List Char))
    (hsep : (blockTableLines blk).findIdx? hasSep = some k)
    (hr : r ∈ blockRows blk k)
    (hbad : r.length ≠ (blockHeaders blk k).length) :
    blockReplacement blk = none := by
  by_cases hp : '|' ∈ blk
  · rw [blockReplacement_of_pipe_sep blk k hp hsep]
    unfold blockReplacementCore
    by_cases hk : k > 0
    · rw [if_pos hk]
      have hall : (blockRows blk k).all
          (fun r => r.length = (blockHeaders blk k).length) = false := by
        rw [List.all_eq_false]
        exact ⟨r, hr, by simpa using hbad⟩
      rw [if_neg]
      intro hcon
      rw [hall] at hcon
      exact Bool.false_ne_true hcon.2.2
    · rw [if_neg hk]
  · exact blockReplacement_of_no_pipe blk hp

/-- Claim C9: the transform maps the empty string (the falsy-argument
guard of the source) to the empty string. -/
theorem claim9_empty_input : formatSummary ("".data) = "".data := rfl

/-- Claim C1 counterexample: on the spec's own example block, the output
contains neither the claimed bullet lines nor the claimed numbered
heading line, so the claimed output is not produced. -/
theorem claim1_counterexample :
    containsSub ("• Task: Fix bug".data) (formatSummary exC1) = false ∧
    containsSub ("Owner: N/A".data) (formatSummary exC1) = false ∧
    containsSub ("## 3. Action Items:".data) (formatSummary exC1) = false := by
  refine ⟨?_, ?_, ?_⟩ <;> decide

/-- Claim C1 amended: on the example block the second row's empty Owner
cell is dropped by the cell parser, leaving a 1-cell row against 2
headers, so the table fails validation and no substitution happens; the
output is the input with only the global cleanup applied (pipes intact,
heading numbering stripped). -/
theorem claim1_amended :
    formatSummary exC1 =
      ("Action Items:\n| Task | Owner |\n| --- | --- |\n| Fix bug | Alice |\n| Write docs |  |".data) := by
  decide

/-- Claim C2 counterexample: a data row whose first cell is empty after
trimming still passes validation (the empty cell is dropped and the
remaining cell count matches the single header), yet the output renders
the following cell's value at the empty cell's header position and `N/A`
appears nowhere. -/
theorem claim2_counterexample :
    tableSubstituted exC2 = true ∧
    formatSummary exC2 = ("Action Items:\n\n• Task: Fix".data) ∧
    containsSub ("N/A".data) (formatSummary exC2) = false := by
  refine ⟨?_, ?_, ?_⟩ <;> decide

/-- Claim C5 counterexample: lines of the block occurring after a blank
line do affect whether the table substitution happens: with the stray
line `extra note` present no substitution fires and the table survives
verbatim, while the same input without that line is substituted. -/
theorem claim5_counterexample :
    tableSubstituted exC5 = false ∧
    tableSubstituted exC5v = true ∧
    formatSummary exC5 =
      ("Action Items:\n| Task | Owner |\n| --- | --- |\n| Fix | Al |\n\nextra note".data) := by
  refine ⟨?_, ?_, ?_⟩ <;> decide

/-- Claim C6 counterexample: an input whose first Action Items table
parses validly but whose last line carries stacked heading numbering is
not a fixed point of a second application — the second pass strips one
more numbering layer. -/
theorem claim6_counterexample :
    tableSubstituted exC6 = true ∧
    formatSummary (formatSummary exC6) ≠ formatSummary exC6 := by
  refine ⟨?_, ?_⟩ <;> decide

set_option maxRecDepth 4000 in
/-- Claim C6 amended: idempotence fails in general (see the
counterexample); it does hold on inputs of the spec's canonical shape —
a validly reformatted table with single-layer heading numbering — as
witnessed by this example. -/
theorem claim6_amended :
    tableSubstituted exC6v = true ∧
    formatSummary (formatSummary exC6v) = formatSummary exC6v := by
  refine ⟨?_, ?_⟩ <;> decide

/-- Claim C8 counterexample: a run of four newlines at the end of the
input is removed entirely by the final trim rather than collapsed to two
newlines — the output contains no newline at all. -/
theorem claim8_counterexample :
    formatSummary exC8 = ("a".data) ∧ (formatSummary exC8).count '\n' = 0 := by
  refine ⟨?_, ?_⟩ <;> decide

/-- Claim C3: when the table cannot be parsed (no block, no pipe, no
usable separator, or failed validation — i.e. the substitution branch
does not fire), the transform still returns a result and it is exactly
the input with the global cleanup applied; the embedding is total, so no
error is ever raised. -/
theorem claim3_degrades_gracefully (s : List Char)
    (h : tableSubstituted s = false) : formatSummary s = applyCleanup s :=
  formatSummary_of_not_substituted s h

/-- Witness for claim C3 at a concrete malformed input. -/
theorem claim3_degrades_gracefully_witness :
    tableSubstituted exC3 = false ∧ formatSummary exC3 = applyCleanup exC3 :=
  ⟨by decide, claim3_degrades_gracefully exC3 (by decide)⟩

/-- Claim C4: if some parsed data row's cell count differs from the
header count, the table substitution is abandoned and the output is the
input with only the global cleanup applied. -/
theorem claim4_mismatched_row_width (s : List Char) (i n k : Nat) (r : List (List Char))
    (hspan : actionBlockSpan s = some (i, n))
    (hsep : (blockTableLines ((s.drop i).take n)).findIdx? hasSep = some k)
    (hr : r ∈ blockRows ((s.drop i).take n) k)
    (hbad : r.length ≠ (blockHeaders ((s.drop i).take n) k).length) :
    formatSummary s = applyCleanup s := by
  apply formatSummary_of_not_substituted
  unfold tableSubstituted
  rw [hspan]
  show (blockReplacement ((s.drop i).take n)).isSome = false
  rw [blockReplacement_of_bad_row _ k r hsep hr hbad]
  rfl

/-- Witness for claim C4 at the spec's inconsistent-columns example
(a 2-cell row against 3 headers). -/
theorem claim4_mismatched_row_width_witness :
    actionBlockSpan exC4 = some (0, 63) ∧
    (blockTableLines ((exC4.drop 0).take 63)).findIdx? hasSep = some 1 ∧
    ["x".data, "y".data] ∈ blockRows ((exC4.drop 0).take 63) 1 ∧
    (["x".data, "y".data] : List (List Char)).length ≠
      (blockHeaders ((exC4.drop 0).take 63) 1).length ∧
    formatSummary exC4 = applyCleanup exC4 :=
  ⟨by decide, by decide, by decide, by decide,
   claim4_mismatched_row_width exC4 0 63 1 ["x".data, "y".data]
     (by decide) (by decide) (by decide) (by decide)⟩

/-- Claim C10: if the first line of the table region already contains the
separator (`separatorIndex` is 0, so no header row precedes it), no table
substitution happens even though the block contains a pipe, and the
output is the input with only the global cleanup applied: the code needs
`separatorIndex > 0`, not merely a separator. -/
theorem claim10_separator_first (s : List Char) (i n : Nat)
    (hspan : actionBlockSpan s = some (i, n))
    (hpipe : '|' ∈ (s.drop i).take n)
    (hsep : (blockTableLines ((s.drop i).take n)).findIdx? hasSep = some 0) :
    formatSummary s = applyCleanup s := by
  apply formatSummary_of_not_substituted
  unfold tableSubstituted
  rw [hspan]
  show (blockReplacement ((s.drop i).take n)).isSome = false
  rw [blockReplacement_of_pipe_sep _ 0 hpipe hsep]
  rfl

/-- Witness for claim C10 at a block whose first table line is the
separator row. -/
theorem claim10_separator_first_witness :
    actionBlockSpan exC10 = some (0, 32) ∧
    '|' ∈ (exC10.drop 0).take 32 ∧
    (blockTableLines ((exC10.drop 0).take 32)).findIdx? hasSep = some 0 ∧
    formatSummary exC10 = applyCleanup exC10 :=
  ⟨by decide, by decide, by decide,
   claim10_separator_first exC10 0 32 (by decide) (by decide) (by decide)⟩

/-- Helper: an element read with a default at an in-bounds index is a
member of the list. -/
theorem getD_mem_of_lt (l : List (List Char)) (j : Nat) (h : j < l.length) :
    l.getD j [] ∈ l := by
  rw [List.getD_eq_getElem l [] h]
  exact List.getElem_mem h

/-- Claim C2 amended: for a table that passes validation, every rendered
value is the row's own (necessarily non-empty) cell: the `N/A` fallback
branch is unreachable, so `renderContent` coincides with the direct
renderer that has no fallback. -/
theorem claim2_amended (ht : List Char) (headers : List (List Char))
    (rawLines : List (List Char)) (rows : List (List (List Char)))
    (hrows : rows = (rawLines.map parseRowCells).filter (fun r => r ≠ []))
    (hlen : rows.all (fun r => r.length = headers.length) = true) :
    renderContent ht headers rows = renderContentDirect ht headers rows := by
  have hcells : ∀ r ∈ rows, ∀ c ∈ r, c ≠ [] := by
    subst hrows
    intro r hr c hc
    have hr2 := (List.mem_filter.mp hr).1
    rcases List.mem_map.mp hr2 with ⟨line, _, rfl⟩
    unfold parseRowCells at hc
    have := (List.mem_filter.mp hc).2
    simpa using this
  have hlen2 : ∀ r ∈ rows, r.length = headers.length := by
    intro r hr
    simpa using List.all_eq_true.mp hlen r hr
  unfold renderContent renderContentDirect
  congr 1
  congr 1
  apply List.map_congr_left
  intro row hrow
  congr 1
  congr 1
  apply List.map_congr_left
  intro p hp
  have hd : headers[p.1]? = some p.2 := List.mem_enum_iff_getElem?.mp hp
  have hlt : p.1 < headers.length := by
    rcases List.getElem?_eq_some.mp hd with ⟨hh, _⟩
    exact hh
  have hlt2 : p.1 < row.length := by rw [hlen2 row hrow]; exact hlt
  have hne : row.getD p.1 [] ≠ [] :=
    hcells row hrow _ (getD_mem_of_lt row p.1 hlt2)
  unfold bulletLine cellValue
  rw [if_neg hne]

/-- Witness for claim C2 amended at a concrete validated two-row table. -/
theorem claim2_amended_witness :
    ([["Fix".data, "Al".data]] : List (List (List Char))) =
      (["| Fix | Al |".data].map parseRowCells).filter (fun r => r ≠ []) ∧
    ([["Fix".data, "Al".data]] : List (List (List Char))).all
      (fun r => r.length = ["Task".data, "Owner".data].length) = true ∧
    renderContent ("## 1. Action Items:".data) ["Task".data, "Owner".data]
        [["Fix".data, "Al".data]] =
      renderContentDirect ("## 1. Action Items:".data) ["Task".data, "Owner".data]
        [["Fix".data, "Al".data]] :=
  ⟨by decide, by decide,
   claim2_amended ("## 1. Action Items:".data) ["Task".data, "Owner".data]
     ["| Fix | Al |".data] [["Fix".data, "Al".data]] (by decide) (by decide)⟩

/-- Claim C5 amended: every line of the block after the separator row is
parsed as a data row, to the end of the block: a non-blank line occurring
after a blank line still yields a data row, and when its cell count
differs from the header count it invalidates the whole substitution. -/
theorem claim5_amended (s : List Char) (i n k j1 j2 : Nat)
    (hspan : actionBlockSpan s = some (i, n))
    (hsep : (blockTableLines ((s.drop i).take n)).findIdx? hasSep = some k)
    (hj12 : j1 < j2)
    (hj2 : j2 < ((blockTableLines ((s.drop i).take n)).drop (k + 1)).length)
    (hblank : parseRowCells (((blockTableLines ((s.drop i).take n)).drop (k + 1)).getD j1 []) = [])
    (hrow : parseRowCells (((blockTableLines ((s.drop i).take n)).drop (k + 1)).getD j2 []) ≠ [])
    (hbad : (parseRowCells (((blockTableLines ((s.drop i).take n)).drop (k + 1)).getD j2 [])).length
      ≠ (blockHeaders ((s.drop i).take n) k).length) :
    formatSummary s = applyCleanup s := by
  apply formatSummary_of_not_substituted
  unfold tableSubstituted
  rw [hspan]
  show (blockReplacement ((s.drop i).take n)).isSome = false
  have hmem : parseRowCells (((blockTableLines ((s.drop i).take n)).drop (k + 1)).getD j2 [])
      ∈ blockRows ((s.drop i).take n) k := by
    unfold blockRows
    refine List.mem_filter.mpr ⟨?_, by simpa using hrow⟩
    exact List.mem_map.mpr ⟨_, getD_mem_of_lt _ j2 hj2, rfl⟩
  rw [blockReplacement_of_bad_row _ k _ hsep hmem hbad]
  rfl

/-- Witness for claim C5 amended: in `exC5` the blank line is followed by
the stray line `extra note`, whose single parsed cell invalidates the
two-header table. -/
theorem claim5_amended_witness :
    actionBlockSpan exC5 = some (0, 75) ∧
    (blockTableLines ((exC5.drop 0).take 75)).findIdx? hasSep = some 1 ∧
    (1 : Nat) < 2 ∧
    2 < ((blockTableLines ((exC5.drop 0).take 75)).drop 2).length ∧
    parseRowCells (((blockTableLines ((exC5.drop 0).take 75)).drop 2).getD 1 []) = [] ∧
    parseRowCells (((blockTableLines ((exC5.drop 0).take 75)).drop 2).getD 2 []) ≠ [] ∧
    (parseRowCells (((blockTableLines ((exC5.drop 0).take 75)).drop 2).getD 2 [])).length
      ≠ (blockHeaders ((exC5.drop 0).take 75) 1).length ∧
    formatSummary exC5 = applyCleanup exC5 :=
  ⟨by decide, by decide, by decide, by decide, by decide, by decide, by decide,
   claim5_amended exC5 0 75 1 1 2 (by decide) (by decide) (by decide) (by decide)
     (by decide) (by decide) (by decide)⟩


/-- Helper: `ok3` is the boolean form of "no three consecutive newlines". -/
theorem ok3_iff (l : List Char) :
    ok3 l = true ↔ ¬ (['\n', '\n', '\n'] <:+: l) := by
  induction l with
  | nil => simp [ok3]
  | cons c cs ih =>
    rw [ok3, List.infix_cons_iff]
    constructor
    · intro h
      rw [Bool.and_eq_true] at h
      obtain ⟨h1, h2⟩ := h
      rintro (hp | hi)
      · rw [List.cons_prefix_cons] at hp
        obtain ⟨hc, hp2⟩ := hp
        rw [Bool.not_eq_true', Bool.and_eq_false_iff] at h1
        rcases h1 with h1 | h1
        · rw [decide_eq_false_iff_not] at h1
          exact h1 hc.symm
        · rw [← Bool.not_eq_true, List.isPrefixOf_iff_prefix] at h1
          exact h1 (by simpa using hp2)
      · exact ih.mp h2 hi
    · intro h
      rw [Bool.and_eq_true]
      refine ⟨?_, ih.mpr (fun hi => h (Or.inr hi))⟩
      rw [Bool.not_eq_true', Bool.and_eq_false_iff]
      by_cases hc : c = '\n'
      · right
        rw [← Bool.not_eq_true, List.isPrefixOf_iff_prefix]
        intro hp
        exact h (Or.inl (List.cons_prefix_cons.mpr ⟨hc.symm, by simpa using hp⟩))
      · left
        exact decide_eq_false_iff_not.mpr hc

/-- Helper: the no-triple-newline property is closed under contiguous substrings. -/
theorem ok3_infix_closed (u v : List Char) (h : u <:+: v) (hv : ok3 v = true) :
    ok3 u = true :=
  (ok3_iff u).mpr (fun hi => (ok3_iff v).mp hv (hi.trans h))

/-- Helper: the trimmed string is a contiguous substring of the original. -/
theorem jsTrim_infix_self (s : List Char) :
    (((s.dropWhile jsWs).reverse.dropWhile jsWs).reverse) <:+: s := by
  have h1 : s.dropWhile jsWs <:+ s := List.dropWhile_suffix jsWs
  have h2 : (s.dropWhile jsWs).reverse.dropWhile jsWs <:+ (s.dropWhile jsWs).reverse :=
    List.dropWhile_suffix jsWs
  have h3 : ((s.dropWhile jsWs).reverse.dropWhile jsWs).reverse <+: s.dropWhile jsWs := by
    rw [← List.reverse_suffix]
    simpa using h2
  exact h3.isInfix.trans h1.isInfix

/-- Helper: the first character surviving `dropWhile p` fails `p`. -/
theorem head_dropWhile_not (p : Char → Bool) (l : List Char) (c : Char)
    (h : (l.dropWhile p).head? = some c) : p c = false := by
  induction l with
  | nil => simp at h
  | cons a as ih =>
    by_cases hp : p a
    · rw [List.dropWhile_cons_of_pos hp] at h
      exact ih h
    · rw [List.dropWhile_cons_of_neg hp] at h
      simp at h
      subst h
      exact Bool.not_eq_true _ ▸ (by simpa using hp)

/-- Helper: gluing a block with at most two newlines onto a clean string
that does not start with a newline stays clean. -/
theorem ok3_append_small (u v : List Char) (hu : u.count '\n' ≤ 2)
    (hv : ok3 v = true) (hvh : v.head? ≠ some '\n') : ok3 (u ++ v) = true := by
  induction u with
  | nil => simpa using hv
  | cons a u ih =>
    have hu2 : u.count '\n' ≤ 2 := by
      rw [List.count_cons] at hu
      omega
    rw [List.cons_append, ok3, Bool.and_eq_true]
    refine ⟨?_, ih hu2⟩
    rw [Bool.not_eq_true', Bool.and_eq_false_iff]
    by_cases ha : a = '\n'
    · right
      rw [← Bool.not_eq_true, List.isPrefixOf_iff_prefix]
      intro hp
      match u, hp with
      | [], hp =>
        have : v.head? = some '\n' := by
          cases v with
          | nil => simp at hp
          | cons b bs =>
            rw [List.nil_append, List.cons_prefix_cons] at hp
            simp [hp.1.symm]
        exact hvh this
      | [b], hp =>
        rw [List.cons_append, List.cons_prefix_cons] at hp
        have hb := hp.1
        have hp2 := hp.2
        have : v.head? = some '\n' := by
          cases v with
          | nil => simp at hp2
          | cons d ds =>
            rw [List.nil_append, List.cons_prefix_cons] at hp2
            simp [hp2.1.symm]
        exact hvh this
      | b :: d :: u', hp =>
        rw [List.cons_append, List.cons_prefix_cons] at hp
        have hb := hp.1
        rw [List.cons_append, List.cons_prefix_cons] at hp
        have hd := hp.2.1
        rw [ha, List.count_cons, List.count_cons, List.count_cons] at hu
        simp [← hb, ← hd] at hu
    · left
      exact decide_eq_false_iff_not.mpr ha

/-- Helper: the newline-collapsing scanner preserves the first character. -/
theorem collapseNlAux_head (f : Nat) (s : List Char) :
    (collapseNlAux f s).head? = s.head? := by
  cases f with
  | zero => rfl
  | succ f =>
    cases s with
    | nil => rfl
    | cons c cs =>
      by_cases hc : c = '\n'
      · subst hc
        rw [collapseNlAux]
        rw [if_pos rfl]
        by_cases h3 : 3 ≤ (('\n') :: cs.takeWhile jsWs).count '\n'
        · rw [if_pos h3]; rfl
        · rw [if_neg h3]; rfl
      · rw [collapseNlAux, if_neg hc]; rfl

/-- Helper: the output of the newline-collapsing step never contains
three consecutive newlines. -/
theorem ok3_collapseNlAux (f : Nat) : ∀ s : List Char, s.length ≤ f →
    ok3 (collapseNlAux f s) = true := by
  induction f with
  | zero =>
    intro s hs
    have : s = [] := List.length_eq_zero.mp (Nat.le_zero.mp hs)
    subst this
    rfl
  | succ f ih =>
    intro s hs
    cases s with
    | nil => rfl
    | cons c cs =>
      have hcs : cs.length ≤ f := by
        simp only [List.length_cons] at hs
        omega
      have hrest : (cs.dropWhile jsWs).length ≤ f :=
        le_trans ((List.dropWhile_suffix jsWs).sublist.length_le) hcs
      have hresthead : (collapseNlAux f (cs.dropWhile jsWs)).head? ≠ some '\n' := by
        rw [collapseNlAux_head]
        cases hdw : (cs.dropWhile jsWs).head? with
        | none => simp
        | some d =>
          have := head_dropWhile_not jsWs cs d hdw
          intro hcon
          have hd : d = '\n' := by simpa using hcon
          subst hd
          have ht : jsWs '\n' = true := by decide
          rw [ht] at this
          exact Bool.noConfusion this
      by_cases hc : c = '\n'
      · subst hc
        rw [collapseNlAux, if_pos rfl]
        by_cases h3 : 3 ≤ (('\n') :: cs.takeWhile jsWs).count '\n'
        · rw [if_pos h3]
          have : ('\n' :: '\n' :: collapseNlAux f (cs.dropWhile jsWs)) =
              ['\n', '\n'] ++ collapseNlAux f (cs.dropWhile jsWs) := rfl
          rw [this]
          exact ok3_append_small _ _ (by decide) (ih _ hrest) hresthead
        · rw [if_neg h3]
          apply ok3_append_small _ _ _ (ih _ hrest) hresthead
          omega
      · rw [collapseNlAux, if_neg hc, ok3, Bool.and_eq_true]
        refine ⟨?_, ih cs hcs⟩
        rw [Bool.not_eq_true', Bool.and_eq_false_iff]
        left
        exact decide_eq_false_iff_not.mpr hc

/-- Claim C8 amended: a newline run of the input can be consumed by an
earlier step or trimmed away at the string boundaries, so it is not
always rendered as two newlines; what does hold is that the output never
contains three consecutive newlines, and an interior run of four
newlines does collapse to exactly two. -/
theorem claim8_amended :
    (∀ s : List Char, ok3 (formatSummary s) = true) ∧
    formatSummary ("a\n\n\n\nb".data) = ("a\n\nb".data) := by
  constructor
  · intro s
    unfold formatSummary
    by_cases hs : s = []
    · rw [if_pos hs]; rfl
    · rw [if_neg hs]
      unfold applyCleanup
      apply ok3_infix_closed _ _ (jsTrim_infix_self _)
      exact ok3_collapseNlAux _ _ (le_refl _)
  · decide

/-- Helper: `takeWhile` and `dropWhile` on an append whose left part is
all-satisfying and whose right part starts with a failing element. -/
theorem takeWhile_dropWhile_append (p : Char → Bool) (xs ys : List Char)
    (h1 : ∀ x ∈ xs, p x = true) (h2 : ∀ c, ys.head? = some c → p c = false) :
    (xs ++ ys).takeWhile p = xs ∧ (xs ++ ys).dropWhile p = ys := by
  induction xs with
  | nil =>
    simp only [List.nil_append]
    cases ys with
    | nil => simp
    | cons c cs =>
      have := h2 c rfl
      constructor
      · exact List.takeWhile_cons_of_neg (by simp [this])
      · exact List.dropWhile_cons_of_neg (by simp [this])
  | cons x xs ih =>
    have hx : p x = true := h1 x (by simp)
    have ih2 := ih (fun a ha => h1 a (by simp [ha]))
    constructor
    · rw [List.cons_append, List.takeWhile_cons_of_pos hx, ih2.1]
    · rw [List.cons_append, List.dropWhile_cons_of_pos hx, ih2.2]

/-- Helper: a decimal digit is not ECMAScript whitespace. -/
theorem jsWs_eq_false_of_isDigit (d : Char) (hd : d.isDigit = true) : jsWs d = false := by
  rw [Char.isDigit, Bool.and_eq_true, decide_eq_true_eq, decide_eq_true_eq] at hd
  obtain ⟨h1, h2⟩ := hd
  unfold jsWs
  simp only [Bool.or_eq_false_iff, Bool.and_eq_false_iff, decide_eq_false_iff_not]
  refine ⟨⟨⟨⟨⟨⟨⟨⟨⟨⟨⟨⟨⟨⟨?_, ?_⟩, ?_⟩, ?_⟩, ?_⟩, ?_⟩, ?_⟩, ?_⟩, ?_⟩, ?_⟩, ?_⟩, ?_⟩, ?_⟩, ?_⟩, ?_⟩
  all_goals first
    | (intro h; rw [h] at h1 h2; revert h1 h2; decide)
    | (left; intro h;
       have h2c : d ≤ Char.ofNat 57 := h2;
       have h4 := le_trans h h2c; revert h4; decide)

/-- Helper: structure of a successful heading match: the consumed text
splits into a `#` run, a whitespace run, a digit, a period, a whitespace
run and the literal, and the match length is the sum of their lengths. -/
theorem parseHeading_some (u : List Char) (h : Nat) (hp : parseHeading u = some h) :
    ∃ A W1 d W2 R,
      u = A ++ W1 ++ d :: '.' :: (W2 ++ (actionLit ++ R)) ∧
      A ≠ [] ∧ (∀ x ∈ A, x = '#') ∧ (∀ x ∈ W1, jsWs x = true) ∧
      d.isDigit = true ∧ (∀ x ∈ W2, jsWs x = true) ∧
      h = A.length + W1.length + 2 + W2.length + actionLit.length := by
  simp only [parseHeading] at hp
  by_cases ha : (u.takeWhile (fun c => c = '#')).length = 0
  · rw [if_pos ha] at hp; exact absurd hp (by simp)
  · rw [if_neg ha] at hp
    split at hp
    rotate_left
    · simp at hp
    next d e r2 hsplit =>
      split at hp
      rotate_left
      · simp at hp
      next hde =>
        split at hp
        rotate_left
        · simp at hp
        next hpre =>
          obtain ⟨hdig, he⟩ := hde
          subst he
          simp only [Option.some.injEq] at hp
          obtain ⟨R, hR⟩ := List.isPrefixOf_iff_prefix.mp hpre
          refine ⟨u.takeWhile (fun c => c = '#'),
            (u.dropWhile (fun c => c = '#')).takeWhile jsWs, d,
            r2.takeWhile jsWs, R, ?_, ?_, ?_, ?_, hdig, ?_, ?_⟩
          · rw [hR, List.takeWhile_append_dropWhile, ← hsplit, List.append_assoc,
              List.takeWhile_append_dropWhile, List.takeWhile_append_dropWhile]
          · intro hnil; rw [hnil] at ha; exact ha rfl
          · intro x hx
            have := List.mem_takeWhile_imp hx
            simpa using this
          · intro x hx
            exact List.mem_takeWhile_imp hx
          · intro x hx
            exact List.mem_takeWhile_imp hx
          · omega

/-- Helper: `parseHeading` evaluated on an explicitly decomposed heading
followed by arbitrary text: the match consumes exactly the heading. -/
theorem parseHeading_build (A W1 W2 t : List Char) (d : Char)
    (hA : A ≠ []) (hAmem : ∀ x ∈ A, x = '#') (hW1 : ∀ x ∈ W1, jsWs x = true)
    (hdig : d.isDigit = true) (hW2 : ∀ x ∈ W2, jsWs x = true) :
    parseHeading (A ++ (W1 ++ d :: '.' :: (W2 ++ (actionLit ++ t)))) =
      some (A.length + W1.length + 2 + W2.length + actionLit.length) := by
  have hA1 : ∀ x ∈ A, (fun c => decide (c = '#')) x = true := fun x hx => by
    simp [hAmem x hx]
  have hhead1 : ∀ c, (W1 ++ d :: '.' :: (W2 ++ (actionLit ++ t))).head? = some c →
      (fun c => decide (c = '#')) c = false := by
    intro c hc
    cases W1 with
    | nil =>
      simp only [List.nil_append, List.head?_cons, Option.some.injEq] at hc
      subst hc
      simp only [decide_eq_false_iff_not]
      intro hcon
      rw [hcon] at hdig
      exact absurd hdig (by decide)
    | cons w ws =>
      simp only [List.cons_append, List.head?_cons, Option.some.injEq] at hc
      subst hc
      have hw := hW1 w (by simp)
      simp only [decide_eq_false_iff_not]
      intro hcon
      rw [hcon] at hw
      exact absurd hw (by decide)
  obtain ⟨htw1, hdw1⟩ := takeWhile_dropWhile_append _ A _ hA1 hhead1
  have hhead2 : ∀ c, (d :: '.' :: (W2 ++ (actionLit ++ t))).head? = some c →
      jsWs c = false := by
    intro c hc
    simp only [List.head?_cons, Option.some.injEq] at hc
    subst hc
    exact jsWs_eq_false_of_isDigit d hdig
  obtain ⟨htw2, hdw2⟩ := takeWhile_dropWhile_append jsWs W1 _ hW1 hhead2
  have hhead3 : ∀ c, (actionLit ++ t).head? = some c → jsWs c = false := by
    intro c hc
    have hA' : (actionLit ++ t).head? = some 'A' := rfl
    rw [hA'] at hc
    obtain rfl := Option.some.inj hc
    decide
  obtain ⟨htw3, hdw3⟩ := takeWhile_dropWhile_append jsWs W2 _ hW2 hhead3
  have hpre3 : actionLit.isPrefixOf (actionLit ++ t) = true :=
    List.isPrefixOf_iff_prefix.mpr ( List.prefix_append _ _)
  have hA0 : ¬ A.length = 0 := by simpa using hA
  simp only [parseHeading, htw1, hdw1, hdw2, htw2, htw3, hdw3, hA0, hdig, hpre3,
    if_true, if_false, eq_self_iff_true, and_self, true_and, and_true, ite_true,
    ite_false, if_neg, not_false_iff]

/-- Helper: a heading match never extends past the end of the string. -/
theorem parseHeading_le (u : List Char) (h : Nat) (hp : parseHeading u = some h) :
    h ≤ u.length := by
  obtain ⟨A, W1, d, W2, R, hu, _, _, _, _, _, hlen⟩ := parseHeading_some u h hp
  subst hu
  simp [List.length_append, hlen]
  omega

/-- Helper: the heading match is determined by the text it consumed: any
continuation after the consumed prefix yields the same match. -/
theorem parseHeading_take_append (u t : List Char) (h : Nat)
    (hp : parseHeading u = some h) : parseHeading (u.take h ++ t) = some h := by
  obtain ⟨A, W1, d, W2, R, hu, hA, hAmem, hW1, hdig, hW2, hlen⟩ := parseHeading_some u h hp
  have hshape : u = (A ++ W1 ++ d :: '.' :: (W2 ++ actionLit)) ++ R := by
    rw [hu]; simp [List.append_assoc]
  have hlen2 : (A ++ W1 ++ d :: '.' :: (W2 ++ actionLit)).length = h := by
    simp [List.length_append]
    omega
  have htake : u.take h = A ++ W1 ++ d :: '.' :: (W2 ++ actionLit) := by
    rw [hshape, ← hlen2, List.take_left]
  rw [htake]
  have hshape2 : (A ++ W1 ++ d :: '.' :: (W2 ++ actionLit)) ++ t =
      A ++ (W1 ++ d :: '.' :: (W2 ++ (actionLit ++ t))) := by
    simp [List.append_assoc]
  rw [hshape2, parseHeading_build A W1 W2 t d hA hAmem hW1 hdig hW2, hlen]

/-- Helper: the lazily matched body never extends past the end. -/
theorem bodyLen_le (t : List Char) : bodyLen t ≤ t.length := by
  induction t with
  | nil => simp [bodyLen]
  | cons c cs ih =>
    rw [bodyLen]
    split
    · simp
    · simp only [List.length_cons]
      omega

/-- Helper: characterization of the leftmost-match scan: the returned
start index is the first position whose heading parse succeeds, and the
length is the heading length plus the lazy body length. -/
theorem findBlockAux_some (l : List Char) : ∀ (base i n : Nat),
    findBlockAux l base = some (i, n) →
    ∃ k h, i = base + k ∧ k ≤ l.length ∧
      parseHeading (l.drop k) = some h ∧
      n = h + bodyLen ((l.drop k).drop h) ∧
      ∀ j, j < k → parseHeading (l.drop j) = none := by
  induction l with
  | nil => intro base i n hf; simp [findBlockAux] at hf
  | cons c cs ih =>
    intro base i n hf
    rw [findBlockAux] at hf
    cases hph : parseHeading (c :: cs) with
    | some h0 =>
      rw [hph] at hf
      have hf2 : some (base, h0 + bodyLen ((c :: cs).drop h0)) = some (i, n) := hf
      obtain ⟨hi, hn⟩ := Prod.mk.injEq .. ▸ Option.some.inj hf2
      refine ⟨0, h0, by omega, by simp, by simpa using hph, by simpa using hn.symm,
        fun j hj => absurd hj (Nat.not_lt_zero j)⟩
    | none =>
      rw [hph] at hf
      have hf2 : findBlockAux cs (base + 1) = some (i, n) := hf
      obtain ⟨k, h0, hik, hkle, hph2, hn, hprev⟩ := ih (base + 1) i n hf2
      refine ⟨k + 1, h0, by omega, by simp; omega, by simpa using hph2,
        by simpa using hn, ?_⟩
      intro j hj
      cases j with
      | zero => simpa using hph
      | succ j2 =>
        have := hprev j2 (by omega)
        simpa using this

/-- Helper: when the pattern first occurs at index `i`, replacing its
first occurrence splices the replacement between the surrounding text. -/
theorem replaceFirst_splice (pat repl : List Char) : ∀ (s : List Char) (i : Nat),
    pat.isPrefixOf (s.drop i) = true →
    (∀ j, j < i → pat.isPrefixOf (s.drop j) = false) →
    replaceFirst pat repl s = s.take i ++ repl ++ s.drop (i + pat.length) := by
  intro s
  induction s with
  | nil =>
    intro i hocc hfirst
    cases i with
    | zero =>
      simp only [List.drop_nil] at hocc
      rw [replaceFirst, if_pos hocc]
      simp
    | succ i2 =>
      have h0 := hfirst 0 (Nat.succ_pos i2)
      simp only [List.drop_nil] at h0 hocc
      rw [hocc] at h0
      exact Bool.noConfusion h0
  | cons c cs ih =>
    intro i hocc hfirst
    cases i with
    | zero =>
      simp only [List.drop_zero] at hocc
      rw [replaceFirst, if_pos hocc]
      simp
    | succ i2 =>
      have h0 := hfirst 0 (Nat.succ_pos i2)
      simp only [List.drop_zero] at h0
      rw [replaceFirst, if_neg (by simp [h0])]
      rw [ih i2 (by simpa using hocc) (fun j hj => by simpa using hfirst (j + 1) (by omega))]
      have harith : i2 + 1 + pat.length = (i2 + pat.length) + 1 := by omega
      rw [harith]
      simp

/-- Claim C7: only the first Action Items block is reformatted.  When the
leftmost block match spans `[i, i+n)` and its table validates, the output
is the cleanup of the input with exactly that span replaced by the
rendered list: all text before and after the span — including any later
Action Items blocks — passes through the global cleanup only. -/
theorem claim7_first_block_only (s : List Char) (i n : Nat) (nc : List Char)
    (hspan : actionBlockSpan s = some (i, n))
    (hrep : blockReplacement ((s.drop i).take n) = some nc) :
    formatSummary s = applyCleanup (s.take i ++ nc ++ s.drop (i + n)) := by
  have hs : s ≠ [] := by
    intro h
    rw [h] at hspan
    simp [actionBlockSpan, findBlockAux] at hspan
  unfold formatSummary
  rw [if_neg hs, substitutedText_of_some s i n hspan, applyBlock_of_some _ _ _ hrep]
  congr 1
  obtain ⟨k, h, hik, hkle, hph, hn, hprev⟩ := findBlockAux_some s 0 i n hspan
  have hik2 : i = k := by omega
  subst hik2
  have hhle : h ≤ (s.drop i).length := parseHeading_le _ _ hph
  have hhn : h ≤ n := by omega
  have hnle : n ≤ (s.drop i).length := by
    have := bodyLen_le ((s.drop i).drop h)
    rw [List.length_drop] at this
    omega
  have hblen : ((s.drop i).take n).length = n := by
    rw [List.length_take]
    exact Nat.min_eq_left hnle
  have hocc : ((s.drop i).take n).isPrefixOf (s.drop i) = true :=
    List.isPrefixOf_iff_prefix.mpr ( List.take_prefix n (s.drop i))
  have hfirst : ∀ j, j < i → ((s.drop i).take n).isPrefixOf (s.drop j) = false := by
    intro j hj
    by_contra hcon
    rw [Bool.not_eq_false] at hcon
    obtain ⟨rest, hrest⟩ := List.isPrefixOf_iff_prefix.mp hcon
    have h1 : ((s.drop i).take n).take h = (s.drop i).take h := by
      rw [List.take_take, Nat.min_eq_left hhn]
    have hsplit : (s.drop i).take n =
        (s.drop i).take h ++ ((s.drop i).take n).drop h := by
      conv_lhs => rw [← List.take_append_drop h ((s.drop i).take n)]
      rw [h1]
    have hj2 : parseHeading (s.drop j) = some h := by
      rw [← hrest, hsplit, List.append_assoc]
      exact parseHeading_take_append (s.drop i) _ h hph
    rw [hprev j hj] at hj2
    exact Option.noConfusion hj2
  rw [replaceFirst_splice _ nc s i hocc hfirst, hblen]

/-- Witness for claim C7 at an input with two valid Action Items blocks:
only the first block's span is replaced; the second block is part of the
untouched suffix handed to the global cleanup. -/
theorem claim7_first_block_only_witness :
    actionBlockSpan exC7 = some (0, 45) ∧
    blockReplacement ((exC7.drop 0).take 45) =
      some ("## 1. Action Items:\n\n• Task: Fix\n".data) ∧
    formatSummary exC7 =
      applyCleanup (exC7.take 0 ++ "## 1. Action Items:\n\n• Task: Fix\n".data ++
        exC7.drop (0 + 45)) :=
  ⟨by decide, by decide,
   claim7_first_block_only exC7 0 45 ("## 1. Action Items:\n\n• Task: Fix\n".data)
     (by decide) (by decide)⟩
